import Mathlib

/-!
Verification of the projective-geometry core of the Image-Corrector
repository (`src/image_corrector/image.py`), shallowly embedded in Lean.
Python floats are modelled as real numbers, Python `int(...)` truncation as
truncation toward zero on `ℝ`, the `None` sentinel as `Option.none`, and the
runtime `ZeroDivisionError` exception as an `Except.error` value.
-/

open Real

namespace ImageCorrector

/-- Embeds the `Position` class (image.py lines 146-171): the position of the
plane and its camera.  All units are radians and meters; `lat` and `lon` are
carried but unused by the geometry. -/
structure Position where
  lat : ℝ
  lon : ℝ
  alt : ℝ
  yaw : ℝ
  pitch : ℝ
  roll : ℝ
  cam_pitch : ℝ
  cam_roll : ℝ

/-- Embeds the local variable `pitch` of `Position.get_distance`
(image.py line 184): `pitch = self.pitch + self.cam_pitch + d_pitch`. -/
def effPitch (p : Position) (d_pitch : ℝ) : ℝ :=
  p.pitch + p.cam_pitch + d_pitch

/-- Embeds the local variable `roll` of `Position.get_distance`
(image.py line 185): `roll = -self.roll + self.cam_roll + d_roll`. -/
def effRoll (p : Position) (d_roll : ℝ) : ℝ :=
  -p.roll + p.cam_roll + d_roll

/-- Embeds the sky test of `Position.get_distance` (image.py line 188):
`abs(pitch) + d_pitch >= pi / 2 or abs(roll) + d_roll >= pi / 2`.
Note the offsets enter with their sign, not via `abs`. -/
def skyGuard (p : Position) (d_pitch d_roll : ℝ) : Prop :=
  π / 2 ≤ |effPitch p d_pitch| + d_pitch ∨ π / 2 ≤ |effRoll p d_roll| + d_roll

/-- Follows the spec's words (for comparison with `skyGuard`, which follows
the code): compare `abs(effPitch) + |dPitch|` and `abs(effRoll) + |dRoll|`
against `π/2`, with the offsets entering through their absolute values. -/
def skyGuardSpec (p : Position) (d_pitch d_roll : ℝ) : Prop :=
  π / 2 ≤ |effPitch p d_pitch| + |d_pitch| ∨ π / 2 ≤ |effRoll p d_roll| + |d_roll|

/-- Embeds the expression assigned to `x` in `Position.get_distance`
(image.py line 191): the distance East. -/
noncomputable def east_dist (p : Position) (d_pitch d_roll : ℝ) : ℝ :=
  p.alt * (tan (effRoll p d_roll) / cos (effPitch p d_pitch) * cos p.yaw +
    tan (effPitch p d_pitch) * sin p.yaw)

/-- Embeds the expression assigned to `y` in `Position.get_distance`
(image.py line 192): the distance North. -/
noncomputable def north_dist (p : Position) (d_pitch d_roll : ℝ) : ℝ :=
  p.alt * (tan (effPitch p d_pitch) * cos p.yaw -
    tan (effRoll p d_roll) / cos (effPitch p d_pitch) * sin p.yaw)

open scoped Classical in
/-- Embeds `Position.get_distance` (image.py lines 173-194).  Returns `none`
when the sky test fires, otherwise `some (x, y)` mirroring the returned list
`[x, y]` — the `x` (East) component first, the `y` (North) component second. -/
noncomputable def get_distance (p : Position) (d_pitch d_roll : ℝ) :
    Option (ℝ × ℝ) :=
  if skyGuard p d_pitch d_roll then none
  else some (east_dist p d_pitch d_roll, north_dist p d_pitch d_roll)

theorem get_distance_eq_none_iff (p : Position) (d_pitch d_roll : ℝ) :
    get_distance p d_pitch d_roll = none ↔ skyGuard p d_pitch d_roll := by
  unfold get_distance
  split <;> simp_all

theorem get_distance_of_not_sky (p : Position) (d_pitch d_roll : ℝ)
    (h : ¬ skyGuard p d_pitch d_roll) :
    get_distance p d_pitch d_roll =
      some (east_dist p d_pitch d_roll, north_dist p d_pitch d_roll) := by
  unfold get_distance
  exact if_neg h

/-- C1: the claim's sky test adds the absolute value of the offset, but the
code (image.py line 188) adds the signed offset.  At
`pitch = π/2 + 1/100`, `dPitch = -1/50` the claim's condition
`|effPitch| + |dPitch| ≥ π/2` holds (so the claim predicts `Sky`), yet
`get_distance` does not return the `Sky` sentinel. -/
theorem c1_counterexample :
    skyGuardSpec ⟨0, 0, 1, 0, π / 2 + 1 / 100, 0, 0, 0⟩ (-(1 / 50)) 0 ∧
    get_distance ⟨0, 0, 1, 0, π / 2 + 1 / 100, 0, 0, 0⟩ (-(1 / 50)) 0 ≠ none := by
  have hpi := Real.pi_gt_three
  have hp : effPitch ⟨0, 0, 1, 0, π / 2 + 1 / 100, 0, 0, 0⟩ (-(1 / 50)) =
      π / 2 - 1 / 100 := by
    rw [effPitch]; ring
  have hr : effRoll ⟨0, 0, 1, 0, π / 2 + 1 / 100, 0, 0, 0⟩ 0 = 0 := by
    rw [effRoll]; ring
  have habs : |π / 2 - 1 / 100| = π / 2 - 1 / 100 :=
    abs_of_nonneg (by nlinarith)
  have hns : ¬ skyGuard ⟨0, 0, 1, 0, π / 2 + 1 / 100, 0, 0, 0⟩ (-(1 / 50)) 0 := by
    rw [skyGuard, hp, hr]
    push_neg
    constructor
    · rw [habs]; nlinarith
    · rw [abs_zero]; nlinarith
  refine ⟨?_, ?_⟩
  · rw [skyGuardSpec, hp]
    left
    rw [habs]
    have h50 : |(-(1 / 50) : ℝ)| = 1 / 50 := by norm_num [abs_of_nonpos]
    rw [h50]; nlinarith
  · rw [get_distance_of_not_sky _ _ _ hns]
    simp

/-- C1 (amended): `get_distance` returns the `Sky` sentinel (`none`) iff
`|effPitch| + dPitch ≥ π/2` or `|effRoll| + dRoll ≥ π/2`, with the offsets
entering with their sign (not their absolute value); in particular, with
`pitch = π/2 - 1/100` and `dPitch = 2/100` (all other angles zero) the
result is `Sky`. -/
theorem c1_sky_guard_signed :
    (∀ (p : Position) (d_pitch d_roll : ℝ),
      get_distance p d_pitch d_roll = none ↔ skyGuard p d_pitch d_roll) ∧
    get_distance ⟨0, 0, 1, 0, π / 2 - 1 / 100, 0, 0, 0⟩ (2 / 100) 0 = none := by
  refine ⟨fun p d_pitch d_roll => get_distance_eq_none_iff p d_pitch d_roll, ?_⟩
  rw [get_distance_eq_none_iff, skyGuard]
  left
  have hp : effPitch ⟨0, 0, 1, 0, π / 2 - 1 / 100, 0, 0, 0⟩ (2 / 100) =
      π / 2 + 1 / 100 := by
    rw [effPitch]; ring
  rw [hp, abs_of_nonneg (by nlinarith [Real.pi_gt_three])]
  nlinarith [Real.pi_gt_three]

/-- C2: the claim puts the North distance first, but the code
(image.py lines 191-194) returns `[x, y]` with `x` the East distance and
`y` the North distance.  With `cam_roll = π/4` and all other angles zero at
altitude 1, the code returns `some (1, 0)`, while the claim predicts
`some (north, east) = some (0, 1)`. -/
theorem c2_counterexample :
    get_distance ⟨0, 0, 1, 0, 0, 0, 0, π / 4⟩ 0 0 = some (1, 0) ∧
    north_dist ⟨0, 0, 1, 0, 0, 0, 0, π / 4⟩ 0 0 = 0 ∧
    east_dist ⟨0, 0, 1, 0, 0, 0, 0, π / 4⟩ 0 0 = 1 ∧
    get_distance ⟨0, 0, 1, 0, 0, 0, 0, π / 4⟩ 0 0 ≠
      some (north_dist ⟨0, 0, 1, 0, 0, 0, 0, π / 4⟩ 0 0,
            east_dist ⟨0, 0, 1, 0, 0, 0, 0, π / 4⟩ 0 0) := by
  have hpi := Real.pi_gt_three
  have hp : effPitch ⟨0, 0, 1, 0, 0, 0, 0, π / 4⟩ 0 = 0 := by
    rw [effPitch]; ring
  have hr : effRoll ⟨0, 0, 1, 0, 0, 0, 0, π / 4⟩ 0 = π / 4 := by
    rw [effRoll]; ring
  have heast : east_dist ⟨0, 0, 1, 0, 0, 0, 0, π / 4⟩ 0 0 = 1 := by
    rw [east_dist, hp, hr]
    simp [Real.tan_pi_div_four]
  have hnorth : north_dist ⟨0, 0, 1, 0, 0, 0, 0, π / 4⟩ 0 0 = 0 := by
    rw [north_dist, hp, hr]
    simp [Real.tan_pi_div_four]
  have hns : ¬ skyGuard ⟨0, 0, 1, 0, 0, 0, 0, π / 4⟩ 0 0 := by
    rw [skyGuard, hp, hr]
    push_neg
    constructor
    · rw [abs_zero]; nlinarith
    · rw [abs_of_nonneg (by nlinarith)]; nlinarith
  have hgd := get_distance_of_not_sky _ _ _ hns
  rw [heast, hnorth] at hgd
  refine ⟨hgd, hnorth, heast, ?_⟩
  rw [hgd, heast, hnorth]
  simp

/-- C2 (amended): whenever `get_distance` does not return the `Sky`
sentinel, it returns the pair whose FIRST component is the East distance
`alt * (tan(effRoll)/cos(effPitch)*cos(yaw) + tan(effPitch)*sin(yaw))` and
whose SECOND component is the North distance
`alt * (tan(effPitch)*cos(yaw) - tan(effRoll)/cos(effPitch)*sin(yaw))`. -/
theorem c2_distance_components (p : Position) (d_pitch d_roll : ℝ)
    (h : get_distance p d_pitch d_roll ≠ none) :
    get_distance p d_pitch d_roll =
      some (east_dist p d_pitch d_roll, north_dist p d_pitch d_roll) := by
  rcases Classical.em (skyGuard p d_pitch d_roll) with hs | hs
  · exact absurd ((get_distance_eq_none_iff p d_pitch d_roll).mpr hs) h
  · exact get_distance_of_not_sky p d_pitch d_roll hs

/-- Witness for C2 (amended): at the all-zero attitude with altitude 1 the
hypothesis holds and the conclusion evaluates to `some (0, 0)`. -/
theorem c2_distance_components_witness :
    get_distance ⟨0, 0, 1, 0, 0, 0, 0, 0⟩ 0 0 ≠ none ∧
    get_distance ⟨0, 0, 1, 0, 0, 0, 0, 0⟩ 0 0 =
      some (east_dist ⟨0, 0, 1, 0, 0, 0, 0, 0⟩ 0 0,
            north_dist ⟨0, 0, 1, 0, 0, 0, 0, 0⟩ 0 0) := by
  have hpi := Real.pi_gt_three
  have hns : ¬ skyGuard ⟨0, 0, 1, 0, 0, 0, 0, 0⟩ 0 0 := by
    rw [skyGuard, effPitch, effRoll]
    push_neg
    norm_num
    nlinarith
  have h : get_distance ⟨0, 0, 1, 0, 0, 0, 0, 0⟩ 0 0 ≠ none := by
    rw [get_distance_of_not_sky _ _ _ hns]
    simp
  exact ⟨h, c2_distance_components _ 0 0 h⟩

/-- Embeds the local variable `vert_fov` of `Position.get_corner_distances`
(image.py line 206): `vert_fov = 2 * atan(tan(horiz_fov / 2) / aspect_ratio)`. -/
noncomputable def vert_fov (aspect horiz_fov : ℝ) : ℝ :=
  2 * arctan (tan (horiz_fov / 2) / aspect)

/-- Embeds `Position.get_corner_distances` (image.py lines 196-220): queries
`get_distance` at the four corner offsets in top-left, top-right,
bottom-right, bottom-left order; if any query returns the `Sky` sentinel the
whole result is `none` (horizon visible), otherwise the list of the four
resolved corners. -/
noncomputable def get_corner_distances (p : Position) (aspect horiz_fov : ℝ) :
    Option (List (ℝ × ℝ)) :=
  match get_distance p (vert_fov aspect horiz_fov / 2) (-(horiz_fov / 2)),
        get_distance p (vert_fov aspect horiz_fov / 2) (horiz_fov / 2),
        get_distance p (-(vert_fov aspect horiz_fov / 2)) (horiz_fov / 2),
        get_distance p (-(vert_fov aspect horiz_fov / 2)) (-(horiz_fov / 2)) with
  | some c1, some c2, some c3, some c4 => some [c1, c2, c3, c4]
  | _, _, _, _ => none

/-- C5: `get_corner_distances` derives `vertFov = 2*atan(tan(horizFov/2)/aspect)`
and queries `get_distance` at exactly the four offset pairs
`(+vertFov/2, -horizFov/2)`, `(+vertFov/2, +horizFov/2)`,
`(-vertFov/2, +horizFov/2)`, `(-vertFov/2, -horizFov/2)` in this order,
producing the corners in top-left, top-right, bottom-right, bottom-left
order. -/
theorem c5_corner_query_order (p : Position) (aspect horiz_fov : ℝ)
    (h1 : 0 < horiz_fov) (h2 : horiz_fov < π) (h3 : 0 < aspect) :
    vert_fov aspect horiz_fov = 2 * arctan (tan (horiz_fov / 2) / aspect) ∧
    get_corner_distances p aspect horiz_fov =
      ((get_distance p (vert_fov aspect horiz_fov / 2) (-(horiz_fov / 2))).bind
        fun tl =>
      (get_distance p (vert_fov aspect horiz_fov / 2) (horiz_fov / 2)).bind
        fun tr =>
      (get_distance p (-(vert_fov aspect horiz_fov / 2)) (horiz_fov / 2)).bind
        fun br =>
      (get_distance p (-(vert_fov aspect horiz_fov / 2)) (-(horiz_fov / 2))).map
        fun bl => [tl, tr, br, bl]) := by
  refine ⟨rfl, ?_⟩
  rw [get_corner_distances]
  rcases get_distance p (vert_fov aspect horiz_fov / 2) (-(horiz_fov / 2)) with _ | c1 <;>
    rcases get_distance p (vert_fov aspect horiz_fov / 2) (horiz_fov / 2) with _ | c2 <;>
    rcases get_distance p (-(vert_fov aspect horiz_fov / 2)) (horiz_fov / 2) with _ | c3 <;>
    rcases get_distance p (-(vert_fov aspect horiz_fov / 2)) (-(horiz_fov / 2)) with _ | c4 <;>
    rfl

/-- Witness for C5: the range hypotheses hold at `horizFov = 1`, `aspect = 1`
(using `1 < π`). -/
theorem c5_corner_query_order_witness :
    (0 : ℝ) < 1 ∧ (1 : ℝ) < π ∧
    (vert_fov 1 1 = 2 * arctan (tan (1 / 2) / 1) ∧
      get_corner_distances ⟨0, 0, 1, 0, 0, 0, 0, 0⟩ 1 1 =
        ((get_distance ⟨0, 0, 1, 0, 0, 0, 0, 0⟩ (vert_fov 1 1 / 2) (-(1 / 2))).bind
          fun tl =>
        (get_distance ⟨0, 0, 1, 0, 0, 0, 0, 0⟩ (vert_fov 1 1 / 2) (1 / 2)).bind
          fun tr =>
        (get_distance ⟨0, 0, 1, 0, 0, 0, 0, 0⟩ (-(vert_fov 1 1 / 2)) (1 / 2)).bind
          fun br =>
        (get_distance ⟨0, 0, 1, 0, 0, 0, 0, 0⟩ (-(vert_fov 1 1 / 2)) (-(1 / 2))).map
          fun bl => [tl, tr, br, bl])) := by
  have h2 : (1 : ℝ) < π := by nlinarith [Real.pi_gt_three]
  exact ⟨one_pos, h2,
    c5_corner_query_order ⟨0, 0, 1, 0, 0, 0, 0, 0⟩ 1 1 one_pos h2 one_pos⟩

/-- C6: `get_corner_distances` returns the horizon-visible sentinel (`none`)
iff at least one of its four corner `get_distance` queries returns the `Sky`
sentinel (`none`); in the real-valued model non-finite displacements do not
arise, so `Sky` is the only rejection source. -/
theorem c6_horizon_iff_sky_corner (p : Position) (aspect horiz_fov : ℝ) :
    get_corner_distances p aspect horiz_fov = none ↔
      (get_distance p (vert_fov aspect horiz_fov / 2) (-(horiz_fov / 2)) = none ∨
       get_distance p (vert_fov aspect horiz_fov / 2) (horiz_fov / 2) = none ∨
       get_distance p (-(vert_fov aspect horiz_fov / 2)) (horiz_fov / 2) = none ∨
       get_distance p (-(vert_fov aspect horiz_fov / 2)) (-(horiz_fov / 2)) = none) := by
  rw [get_corner_distances]
  rcases get_distance p (vert_fov aspect horiz_fov / 2) (-(horiz_fov / 2)) with _ | c1 <;>
    rcases get_distance p (vert_fov aspect horiz_fov / 2) (horiz_fov / 2) with _ | c2 <;>
    rcases get_distance p (-(vert_fov aspect horiz_fov / 2)) (horiz_fov / 2) with _ | c3 <;>
    rcases get_distance p (-(vert_fov aspect horiz_fov / 2)) (-(horiz_fov / 2)) with _ | c4 <;>
    simp

/-- Embeds replacing the altitude: the state equal to `p` except with
altitude `c * p.alt`. -/
def scaleAlt (c : ℝ) (p : Position) : Position :=
  { p with alt := c * p.alt }

/-- C10: scaling the altitude by `c > 0` leaves the sky decision unchanged
and scales each component of the returned ground displacement by exactly
`c`. -/
theorem c10_altitude_linearity (p : Position) (c d_pitch d_roll : ℝ)
    (hc : 0 < c) :
    get_distance (scaleAlt c p) d_pitch d_roll =
      (get_distance p d_pitch d_roll).map fun v => (c * v.1, c * v.2) := by
  have hguard : skyGuard (scaleAlt c p) d_pitch d_roll ↔
      skyGuard p d_pitch d_roll := by
    rw [skyGuard, skyGuard, effPitch, effPitch, effRoll, effRoll, scaleAlt]
  have heast : east_dist (scaleAlt c p) d_pitch d_roll =
      c * east_dist p d_pitch d_roll := by
    rw [east_dist, east_dist, effPitch, effPitch, effRoll, effRoll, scaleAlt]
    simp only
    ring
  have hnorth : north_dist (scaleAlt c p) d_pitch d_roll =
      c * north_dist p d_pitch d_roll := by
    rw [north_dist, north_dist, effPitch, effPitch, effRoll, effRoll, scaleAlt]
    simp only
    ring
  rcases Classical.em (skyGuard p d_pitch d_roll) with hs | hs
  · rw [(get_distance_eq_none_iff p d_pitch d_roll).mpr hs,
      (get_distance_eq_none_iff (scaleAlt c p) d_pitch d_roll).mpr
        (hguard.mpr hs)]
    rfl
  · rw [get_distance_of_not_sky p d_pitch d_roll hs,
      get_distance_of_not_sky (scaleAlt c p) d_pitch d_roll
        (fun h => hs (hguard.mp h)), heast, hnorth]
    rfl

/-- Witness for C10: at the all-zero attitude with altitude 1 and `c = 2`. -/
theorem c10_altitude_linearity_witness :
    (0 : ℝ) < 2 ∧
    get_distance (scaleAlt 2 ⟨0, 0, 1, 0, 0, 0, 0, 0⟩) 0 0 =
      (get_distance ⟨0, 0, 1, 0, 0, 0, 0, 0⟩ 0 0).map fun v => (2 * v.1, 2 * v.2) :=
  ⟨two_pos, c10_altitude_linearity ⟨0, 0, 1, 0, 0, 0, 0, 0⟩ 2 0 0 two_pos⟩

/-- Embeds Python's `int(...)` on a float (image.py lines 127-128):
truncation toward zero, not rounding. -/
noncomputable def trunc (r : ℝ) : ℤ :=
  if 0 ≤ r then ⌊r⌋ else ⌈r⌉

theorem trunc_intCast (z : ℤ) : trunc (z : ℝ) = z := by
  rw [trunc]
  split
  · exact Int.floor_intCast z
  · exact Int.ceil_intCast z

/-- A footprint of four ground corners, each a `(x = East, y = North)` pair
as returned by `get_distance`; `AerialImage._get_corner_pixels` receives
exactly four such corners from `get_corner_distances`
(image.py lines 120-128), so the list operations of the Python code are
instantiated at these four elements. -/
structure Footprint where
  c1 : ℝ × ℝ
  c2 : ℝ × ℝ
  c3 : ℝ × ℝ
  c4 : ℝ × ℝ

/-- Embeds `min_x = min(x)` (image.py line 130), Python's left-fold `min`
over the four truncated x coordinates. -/
noncomputable def min_x (fp : Footprint) : ℤ :=
  min (min (min (trunc fp.c1.1) (trunc fp.c2.1)) (trunc fp.c3.1))
    (trunc fp.c4.1)

/-- Embeds `max_y = max(y)` (image.py line 131), the maximum of the four
truncated y coordinates before the shift. -/
noncomputable def max_y0 (fp : Footprint) : ℤ :=
  max (max (max (trunc fp.c1.2) (trunc fp.c2.2)) (trunc fp.c3.2))
    (trunc fp.c4.2)

/-- Embeds `max_x = max(x)` after the shift `x = [i - min_x for i in x]`
(image.py lines 133, 136). -/
noncomputable def max_x' (fp : Footprint) : ℤ :=
  max (max (max (trunc fp.c1.1 - min_x fp) (trunc fp.c2.1 - min_x fp))
    (trunc fp.c3.1 - min_x fp)) (trunc fp.c4.1 - min_x fp)

/-- Embeds `max_y = max(y)` after the flip `y = [max_y - i for i in y]`
(image.py lines 134, 137). -/
noncomputable def max_y' (fp : Footprint) : ℤ :=
  max (max (max (max_y0 fp - trunc fp.c1.2) (max_y0 fp - trunc fp.c2.2))
    (max_y0 fp - trunc fp.c3.2)) (max_y0 fp - trunc fp.c4.2)

/-- Embeds `k = ceil(sqrt(2 * image_width * image_height / (max_x * max_y)))`
(image.py line 139), with Python's true division and float sqrt modelled
over `ℝ`. -/
noncomputable def kFactor (fp : Footprint) (W H : ℕ) : ℤ :=
  ⌈Real.sqrt ((2 * W * H : ℝ) / ((max_x' fp * max_y' fp : ℤ) : ℝ))⌉

/-- Failure conditions of the canvas-mapping step.  `zeroDivision` models
the Python `ZeroDivisionError` raised by line 139 when
`max_x * max_y = 0`.  `degenerateFootprint` is modelled from the spec: the
spec's `DegenerateFootprint` rejection condition, which no code path in
`AerialImage._get_corner_pixels` ever produces. -/
inductive PyError where
  | zeroDivision
  | degenerateFootprint
  deriving DecidableEq

/-- Embeds the corner-processing part of `AerialImage._get_corner_pixels`
(image.py lines 127-144) on the four corners received from
`get_corner_distances`: truncate, shift the minimum x to 0, flip y so the
maximum y maps to 0, scale by `k`.  The division on line 139 raises
`ZeroDivisionError` when `max_x * max_y = 0`; there is no explicit
degeneracy check in the code. -/
noncomputable def get_corner_pixels (fp : Footprint) (W H : ℕ) :
    Except PyError (List (ℤ × ℤ)) :=
  if max_x' fp * max_y' fp = 0 then Except.error PyError.zeroDivision
  else Except.ok
    [((trunc fp.c1.1 - min_x fp) * kFactor fp W H,
      (max_y0 fp - trunc fp.c1.2) * kFactor fp W H),
     ((trunc fp.c2.1 - min_x fp) * kFactor fp W H,
      (max_y0 fp - trunc fp.c2.2) * kFactor fp W H),
     ((trunc fp.c3.1 - min_x fp) * kFactor fp W H,
      (max_y0 fp - trunc fp.c3.2) * kFactor fp W H),
     ((trunc fp.c4.1 - min_x fp) * kFactor fp W H,
      (max_y0 fp - trunc fp.c4.2) * kFactor fp W H)]

/-- A fully degenerate footprint: all four corners coincide. -/
def fpDeg : Footprint :=
  ⟨(0, 0), (0, 0), (0, 0), (0, 0)⟩

/-- A 100 m × 100 m footprint. -/
def fpBig : Footprint :=
  ⟨(0, 0), (100, 0), (100, 100), (0, 100)⟩

/-- A 1 m × 1 m footprint. -/
def fpUnit : Footprint :=
  ⟨(0, 0), (1, 0), (1, 1), (0, 1)⟩

theorem trunc_zero : trunc (0 : ℝ) = 0 := by
  rw [show (0 : ℝ) = ((0 : ℤ) : ℝ) by norm_num, trunc_intCast]

theorem trunc_one : trunc (1 : ℝ) = 1 := by
  rw [show (1 : ℝ) = ((1 : ℤ) : ℝ) by norm_num, trunc_intCast]

theorem trunc_hundred : trunc (100 : ℝ) = 100 := by
  rw [show (100 : ℝ) = ((100 : ℤ) : ℝ) by norm_num, trunc_intCast]

theorem max_x'_fpDeg : max_x' fpDeg = 0 := by
  rw [max_x', min_x]
  simp [fpDeg, trunc_zero]

theorem max_y'_fpDeg : max_y' fpDeg = 0 := by
  rw [max_y', max_y0]
  simp [fpDeg, trunc_zero]

theorem min_x_fpUnit : min_x fpUnit = 0 := by
  rw [min_x]
  simp [fpUnit, trunc_zero, trunc_one]

theorem max_y0_fpUnit : max_y0 fpUnit = 1 := by
  rw [max_y0]
  simp [fpUnit, trunc_zero, trunc_one]

theorem max_x'_fpUnit : max_x' fpUnit = 1 := by
  rw [max_x', min_x_fpUnit]
  simp [fpUnit, trunc_zero, trunc_one]

theorem max_y'_fpUnit : max_y' fpUnit = 1 := by
  rw [max_y', max_y0_fpUnit]
  simp [fpUnit, trunc_zero, trunc_one]

theorem min_x_fpBig : min_x fpBig = 0 := by
  rw [min_x]
  simp [fpBig, trunc_zero, trunc_hundred]

theorem max_y0_fpBig : max_y0 fpBig = 100 := by
  rw [max_y0]
  simp [fpBig, trunc_zero, trunc_hundred]

theorem max_x'_fpBig : max_x' fpBig = 100 := by
  rw [max_x', min_x_fpBig]
  simp [fpBig, trunc_zero, trunc_hundred]

theorem max_y'_fpBig : max_y' fpBig = 100 := by
  rw [max_y', max_y0_fpBig]
  simp [fpBig, trunc_zero, trunc_hundred]

theorem ceil_sqrt_eq_one (x : ℝ) (h0 : 0 < x) (h1 : x ≤ 1) :
    ⌈Real.sqrt x⌉ = 1 := by
  rw [Int.ceil_eq_iff]
  constructor
  · push_cast
    simpa using Real.sqrt_pos.mpr h0
  · push_cast
    calc Real.sqrt x ≤ Real.sqrt 1 := Real.sqrt_le_sqrt h1
    _ = 1 := Real.sqrt_one

theorem ceil_sqrt_eq_two (x : ℝ) (h0 : 1 < x) (h1 : x ≤ 4) :
    ⌈Real.sqrt x⌉ = 2 := by
  rw [Int.ceil_eq_iff]
  constructor
  · push_cast
    norm_num
    rw [show (1 : ℝ) = Real.sqrt 1 from Real.sqrt_one.symm]
    exact Real.sqrt_lt_sqrt (by norm_num) h0
  · push_cast
    calc Real.sqrt x ≤ Real.sqrt 4 := Real.sqrt_le_sqrt h1
    _ = 2 := by
        rw [show (4 : ℝ) = 2 ^ 2 by norm_num, Real.sqrt_sq (by norm_num)]

theorem kFactor_fpBig : kFactor fpBig 1 1 = 1 := by
  rw [kFactor, max_x'_fpBig, max_y'_fpBig]
  apply ceil_sqrt_eq_one <;> push_cast <;> norm_num

theorem kFactor_fpUnit : kFactor fpUnit 1 1 = 2 := by
  rw [kFactor, max_x'_fpUnit, max_y'_fpUnit]
  apply ceil_sqrt_eq_two <;> push_cast <;> norm_num

/-- C3: the code has no explicit degeneracy check.  On a zero-extent
footprint `_get_corner_pixels` reaches the division on line 139 with
`max_x * max_y = 0` and raises `ZeroDivisionError`; it does not reject with
the spec's `DegenerateFootprint` condition. -/
theorem c3_counterexample :
    max_x' fpDeg = 0 ∧
    get_corner_pixels fpDeg 1 1 = Except.error PyError.zeroDivision ∧
    get_corner_pixels fpDeg 1 1 ≠ Except.error PyError.degenerateFootprint := by
  have h : max_x' fpDeg * max_y' fpDeg = 0 := by
    rw [max_x'_fpDeg, max_y'_fpDeg]
    norm_num
  refine ⟨max_x'_fpDeg, ?_, ?_⟩
  · rw [get_corner_pixels, if_pos h]
  · rw [get_corner_pixels, if_pos h]
    simp

/-- C3 (amended): if after truncation and shifting `max(x') * max(y') = 0`
(zero extent on an axis), `_get_corner_pixels` performs the division by
zero and fails with Python's `ZeroDivisionError`; no explicit
`DegenerateFootprint` rejection exists in the code. -/
theorem c3_zero_extent_raises (fp : Footprint) (W H : ℕ)
    (h : max_x' fp * max_y' fp = 0) :
    get_corner_pixels fp W H = Except.error PyError.zeroDivision := by
  rw [get_corner_pixels, if_pos h]

/-- Witness for C3 (amended): the all-coincident footprint has zero extent
and indeed produces the `ZeroDivisionError` value. -/
theorem c3_zero_extent_raises_witness :
    max_x' fpDeg * max_y' fpDeg = 0 ∧
    get_corner_pixels fpDeg 1 1 = Except.error PyError.zeroDivision := by
  have h : max_x' fpDeg * max_y' fpDeg = 0 := by
    rw [max_x'_fpDeg, max_y'_fpDeg]
    norm_num
  exact ⟨h, c3_zero_extent_raises fpDeg 1 1 h⟩

theorem ceil_sqrt_bounds (a b : ℤ) (ha : 0 < a) (hb : 0 < b) :
    0 < ⌈Real.sqrt ((a : ℝ) / (b : ℝ))⌉ ∧
    a ≤ ⌈Real.sqrt ((a : ℝ) / (b : ℝ))⌉ ^ 2 * b ∧
    (∀ j : ℤ, 0 < j → j < ⌈Real.sqrt ((a : ℝ) / (b : ℝ))⌉ →
      j ^ 2 * b < a) ∧
    (b < 4 * a → ⌈Real.sqrt ((a : ℝ) / (b : ℝ))⌉ ^ 2 * b < 4 * a) := by
  have ha' : (0 : ℝ) < (a : ℝ) := by exact_mod_cast ha
  have hb' : (0 : ℝ) < (b : ℝ) := by exact_mod_cast hb
  have hq : (0 : ℝ) < (a : ℝ) / (b : ℝ) := div_pos ha' hb'
  have hs : 0 < Real.sqrt ((a : ℝ) / (b : ℝ)) := Real.sqrt_pos.mpr hq
  set s : ℝ := Real.sqrt ((a : ℝ) / (b : ℝ)) with hs_def
  set k : ℤ := ⌈s⌉ with hk_def
  have hk : 0 < k := Int.ceil_pos.mpr hs
  have hsk : s ≤ (k : ℝ) := Int.le_ceil s
  have hsq : s ^ 2 = (a : ℝ) / (b : ℝ) := Real.sq_sqrt hq.le
  have hlow : a ≤ k ^ 2 * b := by
    have h2 : (a : ℝ) / (b : ℝ) ≤ (k : ℝ) ^ 2 := by
      nlinarith [Real.sqrt_nonneg ((a : ℝ) / (b : ℝ))]
    have h3 : (a : ℝ) ≤ (k : ℝ) ^ 2 * (b : ℝ) := by
      rw [div_le_iff hb'] at h2
      linarith
    exact_mod_cast h3
  refine ⟨hk, hlow, ?_, ?_⟩
  · intro j hj hjk
    have hj' : (0 : ℝ) ≤ (j : ℝ) := by exact_mod_cast hj.le
    have hjk' : (j : ℝ) ≤ (k : ℝ) - 1 := by
      have hj1 : j ≤ k - 1 := by omega
      have hj2 : ((j : ℝ)) ≤ ((k - 1 : ℤ) : ℝ) := by exact_mod_cast hj1
      push_cast at hj2
      linarith
    have hlt : (j : ℝ) < s := by
      have := Int.ceil_lt_add_one s
      rw [← hk_def] at this
      linarith
    have hsq2 : (j : ℝ) ^ 2 < (a : ℝ) / (b : ℝ) := (Real.lt_sqrt hj').mp hlt
    have : (j : ℝ) ^ 2 * (b : ℝ) < (a : ℝ) := by
      rw [lt_div_iff hb'] at hsq2
      linarith
    exact_mod_cast this
  · intro h4
    have h4' : (b : ℝ) < 4 * (a : ℝ) := by exact_mod_cast h4
    rcases le_or_lt ((a : ℝ) / (b : ℝ)) 1 with hle | hgt
    · have hs1 : s ≤ 1 := by
        rw [hs_def]
        calc Real.sqrt ((a : ℝ) / (b : ℝ)) ≤ Real.sqrt 1 :=
          Real.sqrt_le_sqrt hle
        _ = 1 := Real.sqrt_one
      have hk1 : k ≤ 1 := by
        rw [hk_def, Int.ceil_le]
        exact_mod_cast hs1
      have hkeq : k = 1 := le_antisymm hk1 hk
      rw [hkeq]
      nlinarith
    · have h1lt : (1 : ℝ) < s := by
        rw [hs_def, show (1 : ℝ) = Real.sqrt 1 from Real.sqrt_one.symm]
        exact Real.sqrt_lt_sqrt (by norm_num) hgt
      have hup : (k : ℝ) < 2 * s := by
        have := Int.ceil_lt_add_one s
        rw [← hk_def] at this
        linarith
      have hk0 : (0 : ℝ) ≤ (k : ℝ) := by exact_mod_cast hk.le
      have hks : (k : ℝ) ^ 2 < 4 * ((a : ℝ) / (b : ℝ)) := by
        nlinarith
      have : (k : ℝ) ^ 2 * (b : ℝ) < 4 * (a : ℝ) := by
        rw [show 4 * ((a : ℝ) / (b : ℝ)) = (4 * (a : ℝ)) / (b : ℝ) by ring,
          lt_div_iff hb'] at hks
        linarith
      exact_mod_cast this

/-- C4 (amended): for a non-degenerate footprint and positive source
dimensions, `k = ceil(sqrt(2*W*H/(maxX*maxY)))` is the smallest positive
integer with `k^2*maxX*maxY ≥ 2*W*H`, and the destination canvas area
satisfies `area ≥ 2*W*H` always; the upper bound `area < 2*W*H*4` holds
under the additional assumption `maxX*maxY < 2*W*H*4` (it fails when the
unscaled footprint area already reaches `8*W*H`, where `k = 1`). -/
theorem c4_scale_factor (fp : Footprint) (W H : ℕ)
    (hW : 0 < W) (hH : 0 < H)
    (hx : 0 < max_x' fp) (hy : 0 < max_y' fp) :
    0 < kFactor fp W H ∧
    (2 * W * H : ℤ) ≤ kFactor fp W H ^ 2 * (max_x' fp * max_y' fp) ∧
    (∀ j : ℤ, 0 < j → j < kFactor fp W H →
      j ^ 2 * (max_x' fp * max_y' fp) < 2 * W * H) ∧
    (2 * W * H : ℤ) ≤
      (kFactor fp W H * max_x' fp) * (kFactor fp W H * max_y' fp) ∧
    ((max_x' fp * max_y' fp : ℤ) < 2 * W * H * 4 →
      (kFactor fp W H * max_x' fp) * (kFactor fp W H * max_y' fp) <
        2 * W * H * 4) := by
  have ha : (0 : ℤ) < 2 * W * H := by
    have hW' : (0 : ℤ) < (W : ℤ) := by exact_mod_cast hW
    have hH' : (0 : ℤ) < (H : ℤ) := by exact_mod_cast hH
    positivity
  have hb : (0 : ℤ) < max_x' fp * max_y' fp := mul_pos hx hy
  have hcast : (((2 * W * H : ℤ)) : ℝ) = (2 * W * H : ℝ) := by
    push_cast
    ring
  have hkf : kFactor fp W H =
      ⌈Real.sqrt (((2 * W * H : ℤ) : ℝ) /
        ((max_x' fp * max_y' fp : ℤ) : ℝ))⌉ := by
    rw [kFactor, hcast]
  have key := ceil_sqrt_bounds (2 * W * H) (max_x' fp * max_y' fp) ha hb
  rw [← hkf] at key
  obtain ⟨k_pos, k_low, k_min, k_up⟩ := key
  refine ⟨k_pos, k_low, k_min, ?_, ?_⟩
  · have harea : (kFactor fp W H * max_x' fp) * (kFactor fp W H * max_y' fp) =
        kFactor fp W H ^ 2 * (max_x' fp * max_y' fp) := by ring
    rw [harea]
    exact k_low
  · intro h8
    have harea : (kFactor fp W H * max_x' fp) * (kFactor fp W H * max_y' fp) =
        kFactor fp W H ^ 2 * (max_x' fp * max_y' fp) := by ring
    rw [harea]
    have := k_up (by omega)
    omega

/-- Witness for C4 (amended): the unit footprint with a 1×1 source image;
there `k = 2` and all bounds hold. -/
theorem c4_scale_factor_witness :
    0 < (1 : ℕ) ∧ (0 : ℤ) < max_x' fpUnit ∧ (0 : ℤ) < max_y' fpUnit ∧
    (0 < kFactor fpUnit 1 1 ∧
      (2 * 1 * 1 : ℤ) ≤ kFactor fpUnit 1 1 ^ 2 * (max_x' fpUnit * max_y' fpUnit) ∧
      (∀ j : ℤ, 0 < j → j < kFactor fpUnit 1 1 →
        j ^ 2 * (max_x' fpUnit * max_y' fpUnit) < 2 * 1 * 1) ∧
      (2 * 1 * 1 : ℤ) ≤
        (kFactor fpUnit 1 1 * max_x' fpUnit) * (kFactor fpUnit 1 1 * max_y' fpUnit) ∧
      ((max_x' fpUnit * max_y' fpUnit : ℤ) < 2 * 1 * 1 * 4 →
        (kFactor fpUnit 1 1 * max_x' fpUnit) * (kFactor fpUnit 1 1 * max_y' fpUnit) <
          2 * 1 * 1 * 4)) := by
  have hx : (0 : ℤ) < max_x' fpUnit := by
    rw [max_x'_fpUnit]
    norm_num
  have hy : (0 : ℤ) < max_y' fpUnit := by
    rw [max_y'_fpUnit]
    norm_num
  exact ⟨Nat.one_pos, hx, hy,
    by exact_mod_cast c4_scale_factor fpUnit 1 1 Nat.one_pos Nat.one_pos hx hy⟩

/-- C4: the claimed unconditional upper bound `area < 2*W*H*4` fails.  On
the 100×100 footprint with a 1×1 source image the scale factor is `k = 1`
(the smallest positive integer with `k²·maxX·maxY ≥ 2·W·H`, and the lower
bound `area ≥ 2·W·H` holds), yet the canvas area is `10000`, far above
`2·1·1·4 = 8`. -/
theorem c4_counterexample :
    (0 : ℤ) < max_x' fpBig ∧ (0 : ℤ) < max_y' fpBig ∧
    kFactor fpBig 1 1 = 1 ∧
    (2 * 1 * 1 : ℤ) ≤
      (kFactor fpBig 1 1 * max_x' fpBig) * (kFactor fpBig 1 1 * max_y' fpBig) ∧
    ¬ ((kFactor fpBig 1 1 * max_x' fpBig) * (kFactor fpBig 1 1 * max_y' fpBig) <
        (2 * 1 * 1 * 4 : ℤ)) := by
  rw [kFactor_fpBig, max_x'_fpBig, max_y'_fpBig]
  norm_num

/-- C7: for a non-degenerate footprint the destination pixel corners are,
corner for corner, `x = (trunc(east) - min trunc(east)) * k` and
`y = (max trunc(north) - trunc(north)) * k`: x is taken from the East
coordinate (the first component of each ground corner), y from the North
coordinate, the minimum x is shifted to 0 and y is flipped so the maximum
original y maps to 0. -/
theorem c7_pixel_mapping (fp : Footprint) (W H : ℕ)
    (hx : 0 < max_x' fp) (hy : 0 < max_y' fp) :
    get_corner_pixels fp W H = Except.ok
      [((trunc fp.c1.1 - min_x fp) * kFactor fp W H,
        (max_y0 fp - trunc fp.c1.2) * kFactor fp W H),
       ((trunc fp.c2.1 - min_x fp) * kFactor fp W H,
        (max_y0 fp - trunc fp.c2.2) * kFactor fp W H),
       ((trunc fp.c3.1 - min_x fp) * kFactor fp W H,
        (max_y0 fp - trunc fp.c3.2) * kFactor fp W H),
       ((trunc fp.c4.1 - min_x fp) * kFactor fp W H,
        (max_y0 fp - trunc fp.c4.2) * kFactor fp W H)] := by
  rw [get_corner_pixels, if_neg (mul_pos hx hy).ne']

/-- Witness for C7: the unit footprint with a 1×1 source image is
non-degenerate and the mapping formula applies. -/
theorem c7_pixel_mapping_witness :
    (0 : ℤ) < max_x' fpUnit ∧ (0 : ℤ) < max_y' fpUnit ∧
    get_corner_pixels fpUnit 1 1 = Except.ok
      [((trunc fpUnit.c1.1 - min_x fpUnit) * kFactor fpUnit 1 1,
        (max_y0 fpUnit - trunc fpUnit.c1.2) * kFactor fpUnit 1 1),
       ((trunc fpUnit.c2.1 - min_x fpUnit) * kFactor fpUnit 1 1,
        (max_y0 fpUnit - trunc fpUnit.c2.2) * kFactor fpUnit 1 1),
       ((trunc fpUnit.c3.1 - min_x fpUnit) * kFactor fpUnit 1 1,
        (max_y0 fpUnit - trunc fpUnit.c3.2) * kFactor fpUnit 1 1),
       ((trunc fpUnit.c4.1 - min_x fpUnit) * kFactor fpUnit 1 1,
        (max_y0 fpUnit - trunc fpUnit.c4.2) * kFactor fpUnit 1 1)] := by
  have hx : (0 : ℤ) < max_x' fpUnit := by
    rw [max_x'_fpUnit]
    norm_num
  have hy : (0 : ℤ) < max_y' fpUnit := by
    rw [max_y'_fpUnit]
    norm_num
  exact ⟨hx, hy, c7_pixel_mapping fpUnit 1 1 hx hy⟩

/-- C8: every pixel corner produced by `_get_corner_pixels` has
non-negative coordinates, at least one corner has `x = 0`, and at least one
corner has `y = 0`. -/
theorem c8_pixel_invariants (fp : Footprint) (W H : ℕ) (l : List (ℤ × ℤ))
    (hl : get_corner_pixels fp W H = Except.ok l) :
    (∀ q ∈ l, 0 ≤ q.1 ∧ 0 ≤ q.2) ∧
    (∃ q ∈ l, q.1 = 0) ∧ (∃ q ∈ l, q.2 = 0) := by
  rw [get_corner_pixels] at hl
  by_cases h0 : max_x' fp * max_y' fp = 0
  · rw [if_pos h0] at hl
    exact absurd hl (by simp)
  rw [if_neg h0] at hl
  injection hl with hl
  subst hl
  have hk : 0 ≤ kFactor fp W H := Int.ceil_nonneg (Real.sqrt_nonneg _)
  have h1 : min_x fp ≤ trunc fp.c1.1 := by rw [min_x]; omega
  have h2 : min_x fp ≤ trunc fp.c2.1 := by rw [min_x]; omega
  have h3 : min_x fp ≤ trunc fp.c3.1 := by rw [min_x]; omega
  have h4 : min_x fp ≤ trunc fp.c4.1 := by rw [min_x]; omega
  have h5 : trunc fp.c1.2 ≤ max_y0 fp := by rw [max_y0]; omega
  have h6 : trunc fp.c2.2 ≤ max_y0 fp := by rw [max_y0]; omega
  have h7 : trunc fp.c3.2 ≤ max_y0 fp := by rw [max_y0]; omega
  have h8 : trunc fp.c4.2 ≤ max_y0 fp := by rw [max_y0]; omega
  refine ⟨?_, ?_, ?_⟩
  · intro q hq
    simp only [List.mem_cons, List.not_mem_nil, or_false] at hq
    rcases hq with rfl | rfl | rfl | rfl <;>
      exact ⟨mul_nonneg (by omega) hk, mul_nonneg (by omega) hk⟩
  · have hminc : min_x fp = trunc fp.c1.1 ∨ min_x fp = trunc fp.c2.1 ∨
        min_x fp = trunc fp.c3.1 ∨ min_x fp = trunc fp.c4.1 := by
      rw [min_x]
      omega
    rcases hminc with h | h | h | h
    · refine ⟨((trunc fp.c1.1 - min_x fp) * kFactor fp W H,
        (max_y0 fp - trunc fp.c1.2) * kFactor fp W H), by simp, ?_⟩
      show (trunc fp.c1.1 - min_x fp) * kFactor fp W H = 0
      rw [h]
      ring
    · refine ⟨((trunc fp.c2.1 - min_x fp) * kFactor fp W H,
        (max_y0 fp - trunc fp.c2.2) * kFactor fp W H), by simp, ?_⟩
      show (trunc fp.c2.1 - min_x fp) * kFactor fp W H = 0
      rw [h]
      ring
    · refine ⟨((trunc fp.c3.1 - min_x fp) * kFactor fp W H,
        (max_y0 fp - trunc fp.c3.2) * kFactor fp W H), by simp, ?_⟩
      show (trunc fp.c3.1 - min_x fp) * kFactor fp W H = 0
      rw [h]
      ring
    · refine ⟨((trunc fp.c4.1 - min_x fp) * kFactor fp W H,
        (max_y0 fp - trunc fp.c4.2) * kFactor fp W H), by simp, ?_⟩
      show (trunc fp.c4.1 - min_x fp) * kFactor fp W H = 0
      rw [h]
      ring
  · have hmaxc : max_y0 fp = trunc fp.c1.2 ∨ max_y0 fp = trunc fp.c2.2 ∨
        max_y0 fp = trunc fp.c3.2 ∨ max_y0 fp = trunc fp.c4.2 := by
      rw [max_y0]
      omega
    rcases hmaxc with h | h | h | h
    · refine ⟨((trunc fp.c1.1 - min_x fp) * kFactor fp W H,
        (max_y0 fp - trunc fp.c1.2) * kFactor fp W H), by simp, ?_⟩
      show (max_y0 fp - trunc fp.c1.2) * kFactor fp W H = 0
      rw [h]
      ring
    · refine ⟨((trunc fp.c2.1 - min_x fp) * kFactor fp W H,
        (max_y0 fp - trunc fp.c2.2) * kFactor fp W H), by simp, ?_⟩
      show (max_y0 fp - trunc fp.c2.2) * kFactor fp W H = 0
      rw [h]
      ring
    · refine ⟨((trunc fp.c3.1 - min_x fp) * kFactor fp W H,
        (max_y0 fp - trunc fp.c3.2) * kFactor fp W H), by simp, ?_⟩
      show (max_y0 fp - trunc fp.c3.2) * kFactor fp W H = 0
      rw [h]
      ring
    · refine ⟨((trunc fp.c4.1 - min_x fp) * kFactor fp W H,
        (max_y0 fp - trunc fp.c4.2) * kFactor fp W H), by simp, ?_⟩
      show (max_y0 fp - trunc fp.c4.2) * kFactor fp W H = 0
      rw [h]
      ring

theorem get_corner_pixels_fpUnit :
    get_corner_pixels fpUnit 1 1 =
      Except.ok [(0, 2), (2, 2), (2, 0), (0, 0)] := by
  rw [get_corner_pixels,
    if_neg (by rw [max_x'_fpUnit, max_y'_fpUnit]; norm_num),
    kFactor_fpUnit, min_x_fpUnit, max_y0_fpUnit]
  norm_num [fpUnit, trunc_zero, trunc_one]

/-- Witness for C8: the unit footprint with a 1×1 source image yields the
pixel corners `[(0,2),(2,2),(2,0),(0,0)]`, which satisfy the invariants. -/
theorem c8_pixel_invariants_witness :
    get_corner_pixels fpUnit 1 1 =
      Except.ok [(0, 2), (2, 2), (2, 0), (0, 0)] ∧
    ((∀ q ∈ ([(0, 2), (2, 2), (2, 0), (0, 0)] : List (ℤ × ℤ)),
        0 ≤ q.1 ∧ 0 ≤ q.2) ∧
      (∃ q ∈ ([(0, 2), (2, 2), (2, 0), (0, 0)] : List (ℤ × ℤ)), q.1 = 0) ∧
      (∃ q ∈ ([(0, 2), (2, 2), (2, 0), (0, 0)] : List (ℤ × ℤ)), q.2 = 0)) :=
  ⟨get_corner_pixels_fpUnit,
    c8_pixel_invariants fpUnit 1 1 _ get_corner_pixels_fpUnit⟩

/-- Storage locations touched by `AerialImage`: `cwdFile` is the bare
`self._file_name` path in the working directory (read by line 85, written
by line 114), `currentFile` is `current/<name>` and `archiveFile` is
`archive/<...>/<name>` (both written by `_save_original`,
image.py lines 62-71). -/
inductive StoragePath where
  | cwdFile
  | currentFile
  | archiveFile
  deriving DecidableEq

/-- A file system state: each path may hold a raster (rasters are modelled
as bare identifiers). -/
def FileStore := StoragePath → Option ℕ

/-- Embeds a single file write (`cv2.imwrite` / `shutil.copy2` target):
replace the content at one path. -/
def imwrite (s : FileStore) (path : StoragePath) (content : ℕ) : FileStore :=
  fun q => if q = path then some content else s q

/-- Embeds `AerialImage._save_original` (image.py lines 62-71): copy the
incoming raster into `current/` and into `archive/`. -/
def save_original (s : FileStore) (original : ℕ) : FileStore :=
  imwrite (imwrite s StoragePath.currentFile original)
    StoragePath.archiveFile original

/-- Embeds the write-back step of `AerialImage._warp` (image.py line 114):
`cv2.imwrite(self._file_name, new_image)` writes the warped raster to
`self._file_name` — the very path line 85 reads the source raster from —
and writes nothing to `current/` or `archive/`, although the docstring
(lines 78-83) says the warped image is saved there just as
`_save_original` does; the FIXME comment (lines 112-113) records that this
write replaces the original. -/
def warp_write (s : FileStore) (warped : ℕ) : FileStore :=
  imwrite s StoragePath.cwdFile warped

/-- C9: in the state where every path holds the original raster `42`, the
warp write stores the warped raster `99` over the path it read the source
from (destroying what was stored there, per the code's own FIXME), and the
warped raster never reaches the `current/` path — the warped raster does
not become the image's current stored representation. -/
theorem c9_warp_overwrites_original :
    warp_write (fun _ => some 42) 99 StoragePath.cwdFile = some 99 ∧
    warp_write (fun _ => some 42) 99 StoragePath.cwdFile ≠ some 42 ∧
    warp_write (fun _ => some 42) 99 StoragePath.currentFile ≠ some 99 ∧
    warp_write (fun _ => some 42) 99 StoragePath.currentFile = some 42 ∧
    warp_write (fun _ => some 42) 99 StoragePath.archiveFile = some 42 := by
  refine ⟨rfl, ?_, ?_, rfl, rfl⟩ <;> simp [warp_write, imwrite]

end ImageCorrector
